import Mathlib

/-!
Verification of the media-tools duplicate-detection and copy-decision engine.

The definitions below are a shallow embedding of `src/lib.rs` (the function
`sync_files_to_location` and its helpers); `src/import.rs` implements the same
decision logic without the statistics counters, so theorems about the shared
decision core cover both. External collaborators (directory traversal, exif
parsing, `fs::metadata`, `fs::copy`) are modelled by their observable results,
carried on each file record; the filesystem content the run mutates is an
association list from paths to abstract content identifiers.
-/

namespace MediaTools

/-- Model of chrono `DateTime<FixedOffset>` restricted to the observables the
code uses: `==` compares the underlying instant, and `year()`, `month()`,
`day()` read the local calendar date. -/
structure Timestamp where
  instant : Int
  year : Int
  month : Nat
  day : Nat
deriving Repr, DecidableEq

/-- Model of chrono `Default for DateTime<FixedOffset>` (external library code
reached through `unwrap_or_default()`): the Unix epoch
1970-01-01T00:00:00+00:00. -/
def Timestamp.epoch : Timestamp := ⟨0, 1970, 1, 1⟩

/-- Model of chrono `PartialEq` on `DateTime`: equality of instants; this is
the `e.created == created` comparison of lib.rs line 89. -/
def tsBEq (a b : Timestamp) : Bool := a.instant == b.instant

/-- One file as the external collaborators expose it to the program: its full
path, its `file_name()`, the result of `get_exif_date` (`none` when capture
metadata is absent or unreadable), the result of `get_file_size` (`none` when
the stat fails), and an abstract content identifier moved by `fs::copy`. -/
structure SourceFile where
  path : String
  name : String
  exif : Option Timestamp
  sizeRes : Option Nat
  content : Nat
deriving Repr, DecidableEq

/-- Model of `hashed` (lib.rs lines 219-223). `DefaultHasher` is standard
library code external to this repository; it is modelled as a deterministic
64-bit FNV-style fold over the hashed data, all arithmetic mod 2^64. What the
repository itself fixes is the input: only the filename is ever hashed. -/
def hashed (name : String) : Nat :=
  name.data.foldl (fun h c => ((h ^^^ c.toNat) * 1099511628211) % 2 ^ 64)
    14695981039346656037

/-- The fingerprint the code computes for a file, both when indexing
(lib.rs line 172) and when looking a candidate up (lib.rs line 64):
`hashed(path.file_name())`, a function of the file that reads only its
filename. -/
def fingerprint (file : SourceFile) : Nat := hashed file.name

/-- Model of `ExistingFile` (lib.rs lines 182-187) and `MediaFile`
(import.rs lines 172-180). -/
structure ExistingFile where
  created : Timestamp
  size : Nat
  path : String
deriving Repr, DecidableEq

/-- Model of `ExistingFile::create_from_path` (lib.rs lines 189-201) and
`MediaFile::try_from_path` (import.rs lines 182-194): the exif date defaults
to the epoch on absence, a size-retrieval failure is an `Err`. -/
def ExistingFile.create_from_path (f : SourceFile) : Except String ExistingFile :=
  match f.sizeRes with
  | none => .error "failed to get size"
  | some sz => .ok ⟨f.exif.getD Timestamp.epoch, sz, f.path⟩

/-- The `HashMap<u64, Vec<ExistingFile>>` index as an association list. -/
abbrev Index := List (Nat × List ExistingFile)

/-- Model of `HashMap::get` on the index. -/
def lookupBucket : Index → Nat → Option (List ExistingFile)
  | [], _ => none
  | (k, v) :: rest, key => if k = key then some v else lookupBucket rest key

/-- Model of `entry(key).and_modify(|v| v.push(existing)).or_insert_with(|| vec![existing])`
(lib.rs lines 173-176): append to the bucket of `key`, or start a new one. -/
def insertExisting : Index → Nat → ExistingFile → Index
  | [], key, e => [(key, [e])]
  | (k, v) :: rest, key, e =>
    if k = key then (k, v ++ [e]) :: rest else (k, v) :: insertExisting rest key e

/-- Model of `build_existing_files_set` (lib.rs lines 155-180) and
`MediaFiles::from_paths` (import.rs lines 142-168): files whose descriptor
construction fails are dropped (`.ok()`, with a logged warning in import.rs)
and indexing continues; the rest are inserted under the hashed filename. -/
def build_existing_files_set (files : List SourceFile) : Index :=
  files.foldl
    (fun idx f =>
      match ExistingFile.create_from_path f with
      | .error _ => idx
      | .ok e => insertExisting idx (fingerprint f) e)
    []

/-- Model of `Statistics` (lib.rs lines 267-274). -/
structure Statistics where
  name_existing : Nat := 0
  found : Nat := 0
  skipped : Nat := 0
  copied_hq : Nat := 0
  copied : Nat := 0
deriving Repr, DecidableEq

/-- Left-pad a digit string with zeros to `width`. -/
def padZeros (width : Nat) (s : String) : String :=
  if s.length < width then String.mk (List.replicate (width - s.length) '0') ++ s
  else s

/-- Rust zero-padded integer formatting `{:0w}`: the sign sits outside the
zeros and counts towards the width. -/
def fmtZeroPad (width : Nat) (n : Int) : String :=
  if n < 0 then "-" ++ padZeros (width - 1) (toString (-n).toNat)
  else padZeros width (toString n.toNat)

/-- The date-directory name `format!("{:04}_{:02}_{:02}", created.year(),
created.month(), created.day())` of lib.rs lines 120-125. -/
def dateDirName (t : Timestamp) : String :=
  fmtZeroPad 4 t.year ++ "_" ++ fmtZeroPad 2 (Int.ofNat t.month) ++ "_"
    ++ fmtZeroPad 2 (Int.ofNat t.day)

/-- The copy destination `target_dir/YYYY_MM_DD/<filename>`
(lib.rs lines 120-131). -/
def destPath (target_dir : String) (created : Timestamp) (name : String) : String :=
  target_dir ++ "/" ++ dateDirName created ++ "/" ++ name

/-- Terminal decision of the per-file logic of `sync_files_to_location`
(lib.rs lines 64-118): skip, copy on a filename-lookup miss (the `else`
branch, line 117), or copy on the name-hit fallthrough that increments
`copied_hq` (line 111). Each copy carries the capture timestamp used for
the date partition. -/
inductive Decision where
  | skip
  | copyNew (created : Timestamp)
  | copyHq (created : Timestamp)
deriving Repr, DecidableEq

/-- The per-candidate decision of lib.rs lines 64-118 (import.rs lines 74-112
is the same logic): look up the hashed filename; on a hit read the size (the
`?` propagates a failure), skip if some same-named entry has exactly this
size, otherwise find the first entry whose exif date equals the candidate's
defaulted one and skip unless the candidate is strictly larger. -/
def resolve (idx : Index) (file : SourceFile) : Except String Decision :=
  match lookupBucket idx (fingerprint file) with
  | none => .ok (.copyNew (file.exif.getD Timestamp.epoch))
  | some existing =>
    match file.sizeRes with
    | none => .error "failed to get size"
    | some file_size =>
      if existing.any fun e => e.size == file_size then .ok .skip
      else
        let created := file.exif.getD Timestamp.epoch
        match existing.find? fun e => tsBEq e.created created with
        | some e =>
          if file_size ≤ e.size then .ok .skip else .ok (.copyHq created)
        | none => .ok (.copyHq created)

/-- The filesystem contents the run mutates: paths to content identifiers. -/
abbrev Fs := List (String × Nat)

/-- Read a path's content. -/
def fsLookup : Fs → String → Option Nat
  | [], _ => none
  | (q, w) :: rest, p => if q = p then some w else fsLookup rest p

/-- Model of `fs::copy` writing `v` at path `p`: overwrite if present
(platform overwrite-on-copy), otherwise add the file. -/
def fsSet : Fs → String → Nat → Fs
  | [], p, v => [(p, v)]
  | (q, w) :: rest, p, v =>
    if q = p then (q, v) :: rest else (q, w) :: fsSet rest p v

/-- One iteration of the `for file in media_files` loop of
`sync_files_to_location` (lib.rs lines 61-135): `found` always increments,
`name_existing` increments on a filename hit, then the decision either skips
(`skipped`), or copies into `target_dir/YYYY_MM_DD/<filename>` (`copied`,
additionally `copied_hq` on the name-hit fallthrough). -/
def syncStep (idx : Index) (target_dir : String) (st : Statistics) (fs : Fs)
    (file : SourceFile) : Except String (Statistics × Fs) :=
  let st := { st with found := st.found + 1 }
  let st :=
    if (lookupBucket idx (fingerprint file)).isSome then
      { st with name_existing := st.name_existing + 1 }
    else st
  match resolve idx file with
  | .error e => .error e
  | .ok .skip => .ok ({ st with skipped := st.skipped + 1 }, fs)
  | .ok (.copyNew created) =>
    .ok ({ st with copied := st.copied + 1 },
      fsSet fs (destPath target_dir created file.name) file.content)
  | .ok (.copyHq created) =>
    .ok ({ st with copied_hq := st.copied_hq + 1, copied := st.copied + 1 },
      fsSet fs (destPath target_dir created file.name) file.content)

/-- The loop of `sync_files_to_location` over the crawled candidate files,
threading statistics and the filesystem; an `Err` aborts the whole run the
way `?` does. -/
def syncFrom (idx : Index) (target_dir : String) :
    Statistics → Fs → List SourceFile → Except String (Statistics × Fs)
  | st, fs, [] => .ok (st, fs)
  | st, fs, f :: rest =>
    match syncStep idx target_dir st fs f with
    | .error e => .error e
    | .ok (st', fs') => syncFrom idx target_dir st' fs' rest

/-- Model of `sync_files_to_location` (lib.rs lines 40-140) from the point
where the extension set is built: index the existing files, then run the
loop over the crawled candidates with zeroed statistics. -/
def sync_files_to_location (existing media_files : List SourceFile)
    (target_dir : String) (fs : Fs) : Except String (Statistics × Fs) :=
  syncFrom (build_existing_files_set existing) target_dir {} fs media_files

/-- The message of the `bail!` in `build_extension_set` (lib.rs line 147),
naming the offending entry. -/
def extErrMsg (extension : String) : String :=
  "extensions must not contain a dot but got " ++ extension

/-- Model of `build_extension_set` (lib.rs lines 142-153, import.rs lines
214-225): fail on the first entry containing a literal dot, otherwise return
the `HashSet` of the entries, modelled as a duplicate-free list. -/
def build_extension_set : List String → Except String (List String)
  | [] => .ok []
  | extension :: rest =>
    if extension.data.contains '.' then .error (extErrMsg extension)
    else
      match build_extension_set rest with
      | .error e => .error e
      | .ok exts => .ok (if extension ∈ exts then exts else extension :: exts)

/-- The statistics relationships maintained by the loop: every found file is
either skipped or copied, the name-hit path accounts for skips and
higher-quality copies, and higher-quality copies are copies. -/
def statsInv (st : Statistics) : Prop :=
  st.found = st.skipped + st.copied ∧
  st.name_existing = st.skipped + st.copied_hq ∧
  st.copied_hq ≤ st.copied

end MediaTools

namespace MediaTools

/-! ### Helper lemmas about the decision function -/

/-- On a filename-lookup miss the decision is a copy with the defaulted
capture timestamp (the `else` branch of lib.rs line 117). -/
theorem resolve_miss (idx : Index) (file : SourceFile)
    (h : lookupBucket idx (fingerprint file) = none) :
    resolve idx file = .ok (.copyNew (file.exif.getD Timestamp.epoch)) := by
  unfold resolve
  rw [h]

/-- On a hit, an exact size match with any same-named entry skips
(lib.rs lines 76-84). -/
theorem resolve_size_match (idx : Index) (file : SourceFile)
    (bucket : List ExistingFile) (file_size : Nat)
    (hb : lookupBucket idx (fingerprint file) = some bucket)
    (hs : file.sizeRes = some file_size)
    (hany : (bucket.any fun e => e.size == file_size) = true) :
    resolve idx file = .ok .skip := by
  unfold resolve
  rw [hb, hs]
  simp [hany]

/-- On a hit, when the first entry with the candidate's defaulted exif date
is at least as large, the candidate is skipped (lib.rs lines 89-106). -/
theorem resolve_ts_match_le (idx : Index) (file : SourceFile)
    (bucket : List ExistingFile) (file_size : Nat) (e : ExistingFile)
    (hb : lookupBucket idx (fingerprint file) = some bucket)
    (hs : file.sizeRes = some file_size)
    (hf : (bucket.find? fun x => tsBEq x.created (file.exif.getD Timestamp.epoch)) = some e)
    (hle : file_size ≤ e.size) :
    resolve idx file = .ok .skip := by
  unfold resolve
  rw [hb, hs]
  by_cases hany : (bucket.any fun x => x.size == file_size) = true
  · simp [hany]
  · simp only [Bool.not_eq_true] at hany
    simp [hany, hf, hle]

/-- On a hit with no exact size match, when the first date-matching entry (if
any) is strictly smaller, the fallthrough of lib.rs line 111 copies the
candidate as a higher-quality version. -/
theorem resolve_hit_copy (idx : Index) (file : SourceFile)
    (bucket : List ExistingFile) (file_size : Nat)
    (hb : lookupBucket idx (fingerprint file) = some bucket)
    (hs : file.sizeRes = some file_size)
    (hany : (bucket.any fun e => e.size == file_size) = false)
    (hf : ∀ e, (bucket.find? fun x => tsBEq x.created (file.exif.getD Timestamp.epoch)) = some e →
      e.size < file_size) :
    resolve idx file = .ok (.copyHq (file.exif.getD Timestamp.epoch)) := by
  unfold resolve
  rw [hb, hs]
  simp only [hany, Bool.false_eq_true, if_false]
  cases hfe : bucket.find? fun x => tsBEq x.created (file.exif.getD Timestamp.epoch) with
  | none => simp
  | some e => simp [Nat.not_le.mpr (hf e hfe)]

/-- On a hit, a failing size read is the propagated error of lib.rs line 74. -/
theorem resolve_size_error (idx : Index) (file : SourceFile) (bucket : List ExistingFile)
    (hb : lookupBucket idx (fingerprint file) = some bucket)
    (hs : file.sizeRes = none) :
    resolve idx file = .error "failed to get size" := by
  unfold resolve
  rw [hb, hs]

/-- A skip decision implies the filename lookup hit. -/
theorem resolve_skip_isSome (idx : Index) (file : SourceFile)
    (h : resolve idx file = .ok .skip) :
    (lookupBucket idx (fingerprint file)).isSome = true := by
  cases hlk : lookupBucket idx (fingerprint file) with
  | none => rw [resolve_miss idx file hlk] at h; exact absurd h (by simp)
  | some bucket => rfl

/-- A higher-quality copy decision implies the filename lookup hit. -/
theorem resolve_copyHq_isSome (idx : Index) (file : SourceFile) (c : Timestamp)
    (h : resolve idx file = .ok (.copyHq c)) :
    (lookupBucket idx (fingerprint file)).isSome = true := by
  cases hlk : lookupBucket idx (fingerprint file) with
  | none => rw [resolve_miss idx file hlk] at h; exact absurd h (by simp)
  | some bucket => rfl

/-- A copy-as-new decision implies the filename lookup missed. -/
theorem resolve_copyNew_isNone (idx : Index) (file : SourceFile) (c : Timestamp)
    (h : resolve idx file = .ok (.copyNew c)) :
    lookupBucket idx (fingerprint file) = none := by
  cases hlk : lookupBucket idx (fingerprint file) with
  | none => rfl
  | some bucket =>
    unfold resolve at h
    rw [hlk] at h
    cases hs : file.sizeRes with
    | none => rw [hs] at h; exact absurd h (by simp)
    | some file_size =>
      rw [hs] at h
      by_cases hany : (bucket.any fun e => e.size == file_size) = true
      · simp [hany] at h
      · simp only [Bool.not_eq_true] at hany
        simp only [hany, Bool.false_eq_true, if_false] at h
        cases hfe : bucket.find? fun x => tsBEq x.created (file.exif.getD Timestamp.epoch) with
        | none => rw [hfe] at h; simp at h
        | some e =>
          rw [hfe] at h
          by_cases hle : file_size ≤ e.size
          · simp [hle] at h
          · simp [hle] at h

/-- Every copy decision carries the candidate's defaulted exif date: both copy
branches of the loop partition by `get_exif_date(&file).unwrap_or_default()`. -/
theorem resolve_copy_created (idx : Index) (file : SourceFile) (c : Timestamp)
    (h : resolve idx file = .ok (.copyNew c) ∨ resolve idx file = .ok (.copyHq c)) :
    c = file.exif.getD Timestamp.epoch := by
  unfold resolve at h
  rcases h with h | h <;>
  · cases hlk : lookupBucket idx (fingerprint file) with
    | none => rw [hlk] at h; simp at h; try exact h.symm
    | some bucket =>
      rw [hlk] at h
      cases hs : file.sizeRes with
      | none => rw [hs] at h; simp at h
      | some file_size =>
        rw [hs] at h
        by_cases hany : (bucket.any fun e => e.size == file_size) = true
        · simp [hany] at h
        · simp only [Bool.not_eq_true] at hany
          simp only [hany, Bool.false_eq_true, if_false] at h
          cases hfe : bucket.find? fun x => tsBEq x.created (file.exif.getD Timestamp.epoch) with
          | none => rw [hfe] at h; simp at h; try exact h.symm
          | some e =>
            rw [hfe] at h
            by_cases hle : file_size ≤ e.size
            · simp [hle] at h
            · simp [hle] at h; try exact h.symm

end MediaTools

namespace MediaTools

/-! ### Helper lemmas about one loop iteration and the whole loop -/

/-- A skip iteration: `found`, `name_existing` and `skipped` increment, the
filesystem is untouched (the `continue` of lib.rs lines 82-83 and 104-105). -/
theorem syncStep_skip (idx : Index) (target_dir : String) (st : Statistics) (fs : Fs)
    (file : SourceFile) (h : resolve idx file = .ok .skip) :
    syncStep idx target_dir st fs file =
      .ok ({ st with found := st.found + 1, name_existing := st.name_existing + 1,
                     skipped := st.skipped + 1 }, fs) := by
  unfold syncStep
  rw [resolve_skip_isSome idx file h, h]
  rfl

/-- A copy-as-new iteration: `found` and `copied` increment and the candidate
is written at its date-partitioned destination. -/
theorem syncStep_copyNew (idx : Index) (target_dir : String) (st : Statistics) (fs : Fs)
    (file : SourceFile) (c : Timestamp) (h : resolve idx file = .ok (.copyNew c)) :
    syncStep idx target_dir st fs file =
      .ok ({ st with found := st.found + 1, copied := st.copied + 1 },
        fsSet fs (destPath target_dir c file.name) file.content) := by
  unfold syncStep
  rw [resolve_copyNew_isNone idx file c h] at *
  rw [h]
  rfl

/-- A higher-quality copy iteration: `found`, `name_existing`, `copied_hq` and
`copied` increment and the candidate is written at its date-partitioned
destination. -/
theorem syncStep_copyHq (idx : Index) (target_dir : String) (st : Statistics) (fs : Fs)
    (file : SourceFile) (c : Timestamp) (h : resolve idx file = .ok (.copyHq c)) :
    syncStep idx target_dir st fs file =
      .ok ({ st with found := st.found + 1, name_existing := st.name_existing + 1,
                     copied_hq := st.copied_hq + 1, copied := st.copied + 1 },
        fsSet fs (destPath target_dir c file.name) file.content) := by
  unfold syncStep
  rw [resolve_copyHq_isSome idx file c h, h]
  rfl

/-- A failing decision aborts the iteration with the same error. -/
theorem syncStep_error (idx : Index) (target_dir : String) (st : Statistics) (fs : Fs)
    (file : SourceFile) (e : String) (h : resolve idx file = .error e) :
    syncStep idx target_dir st fs file = .error e := by
  unfold syncStep
  rw [h]

/-- Folding a step that ignores files with a failing size read is folding over
the other files only. -/
theorem foldl_filter_step (step : Index → SourceFile → Index)
    (hstep : ∀ (idx : Index) (f : SourceFile), f.sizeRes = none → step idx f = idx) :
    ∀ (files : List SourceFile) (idx : Index),
    files.foldl step idx = (files.filter fun f => f.sizeRes.isSome).foldl step idx := by
  intro files
  induction files with
  | nil => intro idx; rfl
  | cons f rest ih =>
    intro idx
    cases hs : f.sizeRes with
    | none => simp [List.filter_cons, hs, hstep idx f hs, ih]
    | some sz => simp [List.filter_cons, hs, ih]

/-- Reading after an overwrite: the written path holds the new content, any
other path is unchanged. -/
theorem fsLookup_fsSet (fs : Fs) (p : String) (v : Nat) (q : String) :
    fsLookup (fsSet fs p v) q = if p = q then some v else fsLookup fs q := by
  induction fs with
  | nil => simp [fsSet, fsLookup]
  | cons hd tl ih =>
    obtain ⟨a, w⟩ := hd
    by_cases hap : a = p
    · subst hap
      simp only [fsSet, if_pos rfl, fsLookup]
      split_ifs <;> simp_all [fsLookup]
    · simp only [fsSet, if_neg hap, fsLookup]
      split_ifs with h1 h2 <;> simp_all [fsLookup, ih]

/-- Frame step for a copying iteration: presence of files is preserved and
paths that are no candidate's destination keep their content. -/
theorem frame_copy_case (target_dir : String) (f : SourceFile)
    (rest : List SourceFile) (fs' : Fs) (fs : Fs)
    (c : Timestamp) (hc : c = f.exif.getD Timestamp.epoch)
    (ihp : ∀ p v, fsLookup (fsSet fs (destPath target_dir c f.name) f.content) p = some v →
      ∃ w, fsLookup fs' p = some w)
    (ihf : ∀ p, (∀ g ∈ rest, p ≠ destPath target_dir (g.exif.getD Timestamp.epoch) g.name) →
      fsLookup fs' p = fsLookup (fsSet fs (destPath target_dir c f.name) f.content) p) :
    (∀ p v, fsLookup fs p = some v → ∃ w, fsLookup fs' p = some w) ∧
    (∀ p, (∀ g ∈ f :: rest, p ≠ destPath target_dir (g.exif.getD Timestamp.epoch) g.name) →
      fsLookup fs' p = fsLookup fs p) := by
  constructor
  · intro p v hv
    have hw : ∃ w, fsLookup (fsSet fs (destPath target_dir c f.name) f.content) p = some w := by
      rw [fsLookup_fsSet]
      split_ifs with hd
      · exact ⟨f.content, rfl⟩
      · exact ⟨v, hv⟩
    obtain ⟨w, hw⟩ := hw
    exact ihp p w hw
  · intro p hp
    rw [ihf p fun g hg => hp g (List.mem_cons_of_mem f hg), fsLookup_fsSet, if_neg]
    intro hd
    exact hp f (List.mem_cons_self f rest) (by rw [← hc]; exact hd.symm)

/-- The loop never removes a file and only writes at candidate destinations. -/
theorem syncFrom_frame (files : List SourceFile) (idx : Index) (target_dir : String)
    (st : Statistics) (fs : Fs) (st' : Statistics) (fs' : Fs)
    (h : syncFrom idx target_dir st fs files = .ok (st', fs')) :
    (∀ p v, fsLookup fs p = some v → ∃ w, fsLookup fs' p = some w) ∧
    (∀ p, (∀ f ∈ files, p ≠ destPath target_dir (f.exif.getD Timestamp.epoch) f.name) →
      fsLookup fs' p = fsLookup fs p) := by
  induction files generalizing st fs with
  | nil =>
    simp only [syncFrom, Except.ok.injEq, Prod.mk.injEq] at h
    obtain ⟨-, rfl⟩ := h
    exact ⟨fun p v hv => ⟨v, hv⟩, fun p _ => rfl⟩
  | cons f rest ih =>
    cases hstep : syncStep idx target_dir st fs f with
    | error e =>
      simp only [syncFrom, hstep] at h
      exact Except.noConfusion h
    | ok pr =>
      obtain ⟨st1, fs1⟩ := pr
      simp only [syncFrom, hstep] at h
      obtain ⟨ihp, ihf⟩ := ih st1 fs1 h
      cases hres : resolve idx f with
      | error e =>
        rw [syncStep_error idx target_dir st fs f e hres] at hstep
        exact Except.noConfusion hstep
      | ok d =>
        cases d with
        | skip =>
          rw [syncStep_skip idx target_dir st fs f hres] at hstep
          injection hstep with hpr
          injection hpr with hst hfs
          subst hfs
          refine ⟨ihp, fun p hp => ?_⟩
          exact ihf p fun g hg => hp g (List.mem_cons_of_mem f hg)
        | copyNew c =>
          have hc := resolve_copy_created idx f c (Or.inl hres)
          rw [syncStep_copyNew idx target_dir st fs f c hres] at hstep
          injection hstep with hpr
          injection hpr with hst hfs
          subst hfs
          exact frame_copy_case target_dir f rest fs' fs c hc ihp ihf
        | copyHq c =>
          have hc := resolve_copy_created idx f c (Or.inr hres)
          rw [syncStep_copyHq idx target_dir st fs f c hres] at hstep
          injection hstep with hpr
          injection hpr with hst hfs
          subst hfs
          exact frame_copy_case target_dir f rest fs' fs c hc ihp ihf

/-- One iteration preserves the statistics relationships. -/
theorem syncStep_inv (idx : Index) (target_dir : String) (st : Statistics) (fs : Fs)
    (file : SourceFile) (st' : Statistics) (fs' : Fs) (hinv : statsInv st)
    (h : syncStep idx target_dir st fs file = .ok (st', fs')) : statsInv st' := by
  obtain ⟨h1, h2, h3⟩ := hinv
  cases hres : resolve idx file with
  | error e =>
    rw [syncStep_error idx target_dir st fs file e hres] at h
    exact Except.noConfusion h
  | ok d =>
    cases d with
    | skip =>
      rw [syncStep_skip idx target_dir st fs file hres] at h
      injection h with hpr
      injection hpr with hst hfs
      subst hst
      refine ⟨?_, ?_, h3⟩ <;> simp <;> omega
    | copyNew c =>
      rw [syncStep_copyNew idx target_dir st fs file c hres] at h
      injection h with hpr
      injection hpr with hst hfs
      subst hst
      refine ⟨?_, ?_, ?_⟩ <;> simp <;> omega
    | copyHq c =>
      rw [syncStep_copyHq idx target_dir st fs file c hres] at h
      injection h with hpr
      injection hpr with hst hfs
      subst hst
      refine ⟨?_, ?_, ?_⟩ <;> simp <;> omega

/-- The loop preserves the statistics relationships. -/
theorem syncFrom_inv (files : List SourceFile) (idx : Index) (target_dir : String)
    (st : Statistics) (fs : Fs) (st' : Statistics) (fs' : Fs) (hinv : statsInv st)
    (h : syncFrom idx target_dir st fs files = .ok (st', fs')) : statsInv st' := by
  induction files generalizing st fs with
  | nil =>
    simp only [syncFrom, Except.ok.injEq, Prod.mk.injEq] at h
    obtain ⟨rfl, -⟩ := h
    exact hinv
  | cons f rest ih =>
    cases hstep : syncStep idx target_dir st fs f with
    | error e =>
      simp only [syncFrom, hstep] at h
      exact Except.noConfusion h
    | ok pr =>
      obtain ⟨st1, fs1⟩ := pr
      simp only [syncFrom, hstep] at h
      exact ih st1 fs1 (syncStep_inv idx target_dir st fs f st1 fs1 hinv hstep) h

end MediaTools

namespace MediaTools

/-! ### Helper lemmas about the extension set -/

/-- Success of the extension-set builder is exactly the absence of a dot in
every entry. -/
theorem bes_ok_iff (exts : List String) :
    (∃ s, build_extension_set exts = Except.ok s) ↔
      ∀ e ∈ exts, e.data.contains '.' = false := by
  induction exts with
  | nil => simp [build_extension_set]
  | cons ext rest ih =>
    by_cases hd : ext.data.contains '.' = true
    · simp only [build_extension_set, hd, if_true]
      constructor
      · rintro ⟨s, hs⟩; cases hs
      · intro hall
        rw [hall ext (List.mem_cons_self ext rest)] at hd
        cases hd
    · simp only [Bool.not_eq_true] at hd
      simp only [build_extension_set, hd, Bool.false_eq_true, if_false]
      constructor
      · rintro ⟨s, hs⟩
        intro e he
        rcases List.mem_cons.mp he with rfl | he'
        · exact hd
        · cases hrest : build_extension_set rest with
          | error m => rw [hrest] at hs; cases hs
          | ok s' => exact (ih.mp ⟨s', hrest⟩) e he'
      · intro hall
        have ⟨s', hs'⟩ := ih.mpr fun e he => hall e (List.mem_cons_of_mem ext he)
        rw [hs']
        exact ⟨_, rfl⟩

/-- A failing extension-set build reports the bail message naming an offending
entry of the input. -/
theorem bes_error_names (exts : List String) (m : String)
    (h : build_extension_set exts = Except.error m) :
    ∃ e ∈ exts, e.data.contains '.' = true ∧ m = extErrMsg e := by
  induction exts with
  | nil => cases h
  | cons ext rest ih =>
    by_cases hd : ext.data.contains '.' = true
    · simp only [build_extension_set, hd, if_true, Except.error.injEq] at h
      exact ⟨ext, List.mem_cons_self ext rest, hd, h.symm⟩
    · simp only [Bool.not_eq_true] at hd
      simp only [build_extension_set, hd, Bool.false_eq_true, if_false] at h
      cases hrest : build_extension_set rest with
      | error m' =>
        rw [hrest] at h
        cases h
        obtain ⟨e, he, hc, hm⟩ := ih hrest
        exact ⟨e, List.mem_cons_of_mem ext he, hc, hm⟩
      | ok s' => rw [hrest] at h; cases h

/-- A successful extension-set build returns exactly the set of the input
entries. -/
theorem bes_mem (exts : List String) (s : List String)
    (h : build_extension_set exts = Except.ok s) (x : String) :
    x ∈ s ↔ x ∈ exts := by
  induction exts generalizing s with
  | nil => cases h; simp
  | cons ext rest ih =>
    by_cases hd : ext.data.contains '.' = true
    · simp only [build_extension_set, hd, if_true] at h; cases h
    · simp only [Bool.not_eq_true] at hd
      simp only [build_extension_set, hd, Bool.false_eq_true, if_false] at h
      cases hrest : build_extension_set rest with
      | error m => rw [hrest] at h; cases h
      | ok s' =>
        rw [hrest] at h
        by_cases hmem : ext ∈ s'
        · simp only [hmem, if_true, Except.ok.injEq] at h
          subst h
          rw [List.mem_cons, ih s' hrest]
          constructor
          · exact Or.inr
          · rintro (rfl | hx)
            · rwa [ih s' hrest] at hmem
            · exact hx
        · simp only [hmem, if_false, Except.ok.injEq] at h
          subst h
          rw [List.mem_cons, List.mem_cons, ih s' hrest]

end MediaTools

namespace MediaTools

/-! ### The claims -/

/-- C1, counterexample. The claim reads the fingerprint as a function of
filename and capture timestamp, so a candidate sharing only a filename with
an indexed file would be a lookup miss and be copied as new. In the code the
fingerprint hashes the filename alone: a candidate with the same filename,
a different capture timestamp and an equal size is skipped, not copied. -/
theorem C1_counterexample :
    resolve
        (build_existing_files_set
          [⟨"old/a.jpg", "a.jpg", some ⟨100, 2024, 1, 1⟩, some 1000, 7⟩])
        ⟨"new/a.jpg", "a.jpg", some ⟨200, 2024, 1, 2⟩, some 1000, 8⟩ =
      Except.ok Decision.skip ∧
    tsBEq ⟨100, 2024, 1, 1⟩ ⟨200, 2024, 1, 2⟩ = false :=
  ⟨rfl, rfl⟩

/-- C1, amended. A candidate whose hashed filename has no entry in the index
is always copied as new with its defaulted capture timestamp. A candidate
sharing a filename with indexed files but agreeing with none of them on the
capture timestamp is skipped when its size equals some same-named entry's
size, and otherwise copied on the path that counts it as a higher-quality
replacement. -/
theorem C1_amended :
    (∀ (idx : Index) (file : SourceFile),
      lookupBucket idx (fingerprint file) = none →
      resolve idx file = Except.ok (Decision.copyNew (file.exif.getD Timestamp.epoch))) ∧
    (∀ (idx : Index) (file : SourceFile) (bucket : List ExistingFile) (file_size : Nat),
      lookupBucket idx (fingerprint file) = some bucket →
      file.sizeRes = some file_size →
      (bucket.any fun e => e.size == file_size) = true →
      resolve idx file = Except.ok Decision.skip) ∧
    (∀ (idx : Index) (file : SourceFile) (bucket : List ExistingFile) (file_size : Nat),
      lookupBucket idx (fingerprint file) = some bucket →
      file.sizeRes = some file_size →
      (bucket.any fun e => e.size == file_size) = false →
      (∀ e ∈ bucket, tsBEq e.created (file.exif.getD Timestamp.epoch) = false) →
      resolve idx file = Except.ok (Decision.copyHq (file.exif.getD Timestamp.epoch))) := by
  refine ⟨resolve_miss, resolve_size_match, ?_⟩
  intro idx file bucket file_size hb hs hany hall
  refine resolve_hit_copy idx file bucket file_size hb hs hany ?_
  intro e hfe
  have hmem := List.mem_of_find?_eq_some hfe
  have hp := List.find?_some hfe
  rw [hall e hmem] at hp
  cases hp

/-- C2, counterexample. The claim states that changing the capture timestamp
(all else equal) changes the fingerprint. In the code the fingerprint is
`hashed(file_name)`: two files with the same filename and different capture
timestamps always have the same fingerprint, with certainty, not merely up to
hash collision. -/
theorem C2_counterexample :
    fingerprint ⟨"a/a.jpg", "a.jpg", some ⟨100, 2024, 1, 1⟩, some 10, 1⟩ =
      fingerprint ⟨"b/a.jpg", "a.jpg", some ⟨999, 2025, 5, 6⟩, some 20, 2⟩ ∧
    (⟨100, 2024, 1, 1⟩ : Timestamp) ≠ ⟨999, 2025, 5, 6⟩ :=
  ⟨rfl, by decide⟩

/-- C2, amended. The fingerprint used to index and look up files is a pure,
deterministic function of the filename alone: any two files with equal
filenames receive equal fingerprints, whatever their capture timestamps,
paths, sizes or contents. -/
theorem C2_amended (f g : SourceFile) (h : f.name = g.name) :
    fingerprint f = fingerprint g := by
  unfold fingerprint
  rw [h]

/-- C2, witness: two files equal only in filename share a fingerprint. -/
theorem C2_amended_witness :
    fingerprint ⟨"x/c.jpg", "c.jpg", some ⟨5, 2020, 2, 3⟩, some 11, 4⟩ =
      fingerprint ⟨"y/c.jpg", "c.jpg", none, none, 9⟩ :=
  C2_amended ⟨"x/c.jpg", "c.jpg", some ⟨5, 2020, 2, 3⟩, some 11, 4⟩
    ⟨"y/c.jpg", "c.jpg", none, none, 9⟩ rfl

/-- C3. A candidate hitting the index whose size strictly exceeds every
matched entry's size is copied on the higher-quality path (`copied_hq` and
`copied` increment) into the date partition derived from its own defaulted
capture timestamp. -/
theorem C3_higher_quality_copied (idx : Index) (target_dir : String) (st : Statistics)
    (fs : Fs) (file : SourceFile) (bucket : List ExistingFile) (file_size : Nat)
    (hb : lookupBucket idx (fingerprint file) = some bucket)
    (hs : file.sizeRes = some file_size)
    (hgt : ∀ e ∈ bucket, e.size < file_size) :
    syncStep idx target_dir st fs file =
      Except.ok
        ({ st with found := st.found + 1, name_existing := st.name_existing + 1,
                   copied_hq := st.copied_hq + 1, copied := st.copied + 1 },
          fsSet fs (destPath target_dir (file.exif.getD Timestamp.epoch) file.name)
            file.content) := by
  have hany : (bucket.any fun e => e.size == file_size) = false := by
    rw [List.any_eq_false]
    intro e he
    simp [Nat.ne_of_lt (hgt e he)]
  have hres := resolve_hit_copy idx file bucket file_size hb hs hany
    (fun e hfe => hgt e (List.mem_of_find?_eq_some hfe))
  exact syncStep_copyHq idx target_dir st fs file _ hres

/-- C3, witness: a 200-byte candidate superseding a 100-byte archived copy of
the same name and date lands in the date partition of its capture date. -/
theorem C3_higher_quality_copied_witness :
    syncStep
        (build_existing_files_set [⟨"p/a.jpg", "a.jpg", some ⟨7, 2024, 1, 1⟩, some 100, 1⟩])
        "t" {} [] ⟨"r/a.jpg", "a.jpg", some ⟨7, 2024, 1, 1⟩, some 200, 3⟩ =
      Except.ok ({ name_existing := 1, found := 1, copied_hq := 1, copied := 1 },
        [("t/2024_01_01/a.jpg", 3)]) := by
  have h := C3_higher_quality_copied
    (build_existing_files_set [⟨"p/a.jpg", "a.jpg", some ⟨7, 2024, 1, 1⟩, some 100, 1⟩])
    "t" {} [] ⟨"r/a.jpg", "a.jpg", some ⟨7, 2024, 1, 1⟩, some 200, 3⟩
    [⟨⟨7, 2024, 1, 1⟩, 100, "p/a.jpg"⟩] 200 rfl rfl (by decide)
  exact h

/-- C4, counterexample. A file without capture metadata is partitioned under
`1970_01_01` (the chrono default timestamp is the Unix epoch), not under
`0000_00_00` as the claim states. -/
theorem C4_counterexample :
    syncStep [] "t" {} [] ⟨"s/a.jpg", "a.jpg", none, some 5, 5⟩ =
      Except.ok ({ found := 1, copied := 1 }, [("t/1970_01_01/a.jpg", 5)]) ∧
    dateDirName Timestamp.epoch ≠ "0000_00_00" :=
  ⟨rfl, by decide⟩

/-- C4, amended. A file whose capture metadata is absent or unreadable
defaults to the Unix epoch timestamp, and (here on the lookup-miss path) is
copied into the date-partition directory `1970_01_01` under the target root;
the partition directory is in general the zero-padded `YYYY_MM_DD` of the
capture date, of which the epoch renders as `1970_01_01`. -/
theorem C4_amended :
    dateDirName Timestamp.epoch = "1970_01_01" ∧
    (∀ (idx : Index) (target_dir : String) (st : Statistics) (fs : Fs) (file : SourceFile),
      file.exif = none →
      lookupBucket idx (fingerprint file) = none →
      syncStep idx target_dir st fs file =
        Except.ok ({ st with found := st.found + 1, copied := st.copied + 1 },
          fsSet fs (target_dir ++ "/" ++ "1970_01_01" ++ "/" ++ file.name) file.content)) := by
  refine ⟨rfl, ?_⟩
  intro idx target_dir st fs file hexif hmiss
  have hres := resolve_miss idx file hmiss
  rw [syncStep_copyNew idx target_dir st fs file _ hres, hexif]
  rfl

/-- C5, counterexample. The index holds two files named `a.jpg` with the same
capture timestamp, of sizes 50 and 100. A 70-byte candidate with that name
and timestamp matches the index and satisfies size-less-or-equal against the
100-byte entry, yet the code compares only against the first
timestamp-matching entry (size 50) and copies the candidate instead of
skipping it. -/
theorem C5_counterexample :
    lookupBucket
        (build_existing_files_set
          [⟨"p/a.jpg", "a.jpg", some ⟨50, 2023, 3, 4⟩, some 50, 1⟩,
           ⟨"q/a.jpg", "a.jpg", some ⟨50, 2023, 3, 4⟩, some 100, 2⟩])
        (fingerprint ⟨"r/a.jpg", "a.jpg", some ⟨50, 2023, 3, 4⟩, some 70, 3⟩) =
      some [⟨⟨50, 2023, 3, 4⟩, 50, "p/a.jpg"⟩, ⟨⟨50, 2023, 3, 4⟩, 100, "q/a.jpg"⟩] ∧
    (70 : Nat) ≤ 100 ∧
    resolve
        (build_existing_files_set
          [⟨"p/a.jpg", "a.jpg", some ⟨50, 2023, 3, 4⟩, some 50, 1⟩,
           ⟨"q/a.jpg", "a.jpg", some ⟨50, 2023, 3, 4⟩, some 100, 2⟩])
        ⟨"r/a.jpg", "a.jpg", some ⟨50, 2023, 3, 4⟩, some 70, 3⟩ =
      Except.ok (Decision.copyHq ⟨50, 2023, 3, 4⟩) :=
  ⟨rfl, by decide, rfl⟩

/-- C5, amended. A candidate matching the index is skipped when its size
exactly equals some matched entry's size, and also when the first matched
entry carrying the candidate's defaulted capture timestamp has size greater
than or equal to the candidate's; being smaller than some other matched
entry does not by itself cause a skip. -/
theorem C5_amended :
    (∀ (idx : Index) (file : SourceFile) (bucket : List ExistingFile) (file_size : Nat),
      lookupBucket idx (fingerprint file) = some bucket →
      file.sizeRes = some file_size →
      (bucket.any fun e => e.size == file_size) = true →
      resolve idx file = Except.ok Decision.skip) ∧
    (∀ (idx : Index) (file : SourceFile) (bucket : List ExistingFile) (file_size : Nat)
      (e : ExistingFile),
      lookupBucket idx (fingerprint file) = some bucket →
      file.sizeRes = some file_size →
      (bucket.find? fun x => tsBEq x.created (file.exif.getD Timestamp.epoch)) = some e →
      file_size ≤ e.size →
      resolve idx file = Except.ok Decision.skip) := by
  refine ⟨resolve_size_match, ?_⟩
  intro idx file bucket file_size e hb hs hf hle
  exact resolve_ts_match_le idx file bucket file_size e hb hs hf hle

end MediaTools

namespace MediaTools

/-- C6. Error handling is asymmetric: building the index silently drops each
file whose size read fails and indexes the remaining files exactly as if the
failing ones were absent, while during resolution a failing size read for a
candidate that hits the index aborts the whole remaining run with the error. -/
theorem C6_error_asymmetry :
    (∀ files : List SourceFile,
      build_existing_files_set files =
        build_existing_files_set (files.filter fun f => f.sizeRes.isSome)) ∧
    (∀ (idx : Index) (target_dir : String) (st : Statistics) (fs : Fs)
      (file : SourceFile) (rest : List SourceFile) (bucket : List ExistingFile),
      lookupBucket idx (fingerprint file) = some bucket →
      file.sizeRes = none →
      syncFrom idx target_dir st fs (file :: rest) = Except.error "failed to get size") := by
  constructor
  · intro files
    unfold build_existing_files_set
    exact foldl_filter_step _
      (fun idx f h => by simp [ExistingFile.create_from_path, h]) files []
  · intro idx target_dir st fs file rest bucket hb hs
    have hres := resolve_size_error idx file bucket hb hs
    have hstep := syncStep_error idx target_dir st fs file _ hres
    unfold syncFrom
    rw [hstep]

/-- C7. The extension-set builder fails, citing the offending entry in its
message, exactly when some entry contains a literal dot character, and
otherwise returns the set of the input entries; in particular
`["jpg", ".mp4"]` fails naming `.mp4` and `["jpg", "mp4"]` yields the
two-element set. -/
theorem C7_extension_validation :
    build_extension_set ["jpg", ".mp4"] = Except.error (extErrMsg ".mp4") ∧
    build_extension_set ["jpg", "mp4"] = Except.ok ["jpg", "mp4"] ∧
    (∀ exts : List String,
      ((∃ s, build_extension_set exts = Except.ok s) ↔
        ∀ e ∈ exts, e.data.contains '.' = false) ∧
      (∀ m, build_extension_set exts = Except.error m →
        ∃ e ∈ exts, e.data.contains '.' = true ∧ m = extErrMsg e) ∧
      (∀ s, build_extension_set exts = Except.ok s → ∀ x, x ∈ s ↔ x ∈ exts)) :=
  ⟨rfl, rfl, fun exts =>
    ⟨bes_ok_iff exts, bes_error_names exts, fun s h x => bes_mem exts s h x⟩⟩

/-- C8. The defaulted capture timestamp is an ordinary value to the
comparison: an indexed file and a candidate that both lack capture metadata
carry equal (epoch) timestamps, match on the timestamp component, and the
decision is the normal size comparison - skip when not larger, higher-quality
copy when strictly larger. -/
theorem C8_default_timestamp_legitimate (ex cand : SourceFile) (esz csz : Nat)
    (hexn : ex.exif = none) (hcn : cand.exif = none)
    (hes : ex.sizeRes = some esz) (hcs : cand.sizeRes = some csz)
    (hname : cand.name = ex.name) :
    tsBEq (ex.exif.getD Timestamp.epoch) (cand.exif.getD Timestamp.epoch) = true ∧
    resolve (build_existing_files_set [ex]) cand =
      Except.ok (if csz ≤ esz then Decision.skip else Decision.copyHq Timestamp.epoch) := by
  constructor
  · rw [hexn, hcn]
    rfl
  · have hidx : build_existing_files_set [ex] =
        [(fingerprint ex, [⟨Timestamp.epoch, esz, ex.path⟩])] := by
      unfold build_existing_files_set
      simp [ExistingFile.create_from_path, hes, hexn, insertExisting]
    have hfp : fingerprint cand = fingerprint ex := by unfold fingerprint; rw [hname]
    have hb : lookupBucket (build_existing_files_set [ex]) (fingerprint cand) =
        some [⟨Timestamp.epoch, esz, ex.path⟩] := by
      rw [hidx, hfp]
      simp [lookupBucket]
    unfold resolve
    rw [hb, hcs, hcn]
    by_cases heq : esz = csz
    · subst heq
      simp [List.any, tsBEq]
    · have hne : (esz == csz) = false := by simp [heq]
      simp only [List.any_cons, List.any_nil, hne, Bool.or_false]
      simp only [List.find?, Option.getD_none,
        show tsBEq Timestamp.epoch Timestamp.epoch = true from rfl]
      by_cases hle : csz ≤ esz
      · simp [hle]
      · simp [hle]

/-- C8, witness: a metadata-less 100-byte archived file and a metadata-less
70-byte candidate of the same name meet on the default timestamp and the
candidate is skipped by the size comparison. -/
theorem C8_default_timestamp_legitimate_witness :
    tsBEq Timestamp.epoch Timestamp.epoch = true ∧
    resolve (build_existing_files_set [⟨"e/x.jpg", "x.jpg", none, some 100, 1⟩])
        ⟨"c/x.jpg", "x.jpg", none, some 70, 2⟩ =
      Except.ok Decision.skip := by
  have h := C8_default_timestamp_legitimate ⟨"e/x.jpg", "x.jpg", none, some 100, 1⟩
    ⟨"c/x.jpg", "x.jpg", none, some 70, 2⟩ 100 70 rfl rfl rfl rfl rfl
  exact h

/-- C9, counterexample. When the target directory lies inside the existing
paths, a higher-quality copy overwrites the pre-existing archived file at the
destination path (platform overwrite-on-copy): the indexed file at
`t/1970_01_01/a.jpg` holds content 10 before the run and content 20 after,
so not every file already present in the existing paths is left untouched. -/
theorem C9_counterexample :
    sync_files_to_location [⟨"t/1970_01_01/a.jpg", "a.jpg", none, some 10, 10⟩]
        [⟨"s/a.jpg", "a.jpg", none, some 20, 20⟩] "t" [("t/1970_01_01/a.jpg", 10)] =
      Except.ok ({ name_existing := 1, found := 1, copied_hq := 1, copied := 1 },
        [("t/1970_01_01/a.jpg", 20)]) ∧
    fsLookup [("t/1970_01_01/a.jpg", 10)] "t/1970_01_01/a.jpg" = some 10 ∧
    fsLookup [("t/1970_01_01/a.jpg", 20)] "t/1970_01_01/a.jpg" = some 20 ∧
    (10 : Nat) ≠ 20 :=
  ⟨rfl, rfl, rfl, by decide⟩

/-- C9, amended. A successful run performs no deletion or renaming: every
path present before the run is still present after it, and every path that is
not the date-partitioned destination `target/YYYY_MM_DD/<name>` of some
candidate of the run - in particular every pre-existing file outside the
target's date partitions - keeps its exact content. -/
theorem C9_amended (existing media_files : List SourceFile) (target_dir : String)
    (fs : Fs) (st' : Statistics) (fs' : Fs)
    (h : sync_files_to_location existing media_files target_dir fs = .ok (st', fs')) :
    (∀ p v, fsLookup fs p = some v → ∃ w, fsLookup fs' p = some w) ∧
    (∀ p, (∀ f ∈ media_files, p ≠ destPath target_dir (f.exif.getD Timestamp.epoch) f.name) →
      fsLookup fs' p = fsLookup fs p) :=
  syncFrom_frame media_files (build_existing_files_set existing) target_dir {} fs st' fs' h

/-- C9, witness: after copying `b.jpg` into the target, the unrelated
pre-existing file `keep.txt` reads the same as before the run. -/
theorem C9_amended_witness :
    fsLookup [("keep.txt", 5), ("t/1970_01_01/b.jpg", 9)] "keep.txt" =
      fsLookup [("keep.txt", 5)] "keep.txt" :=
  (C9_amended [] [⟨"s/b.jpg", "b.jpg", none, some 9, 9⟩] "t" [("keep.txt", 5)]
      { found := 1, copied := 1 } [("keep.txt", 5), ("t/1970_01_01/b.jpg", 9)] rfl).2
    "keep.txt" (by decide)

/-- C10. In every successful run the final statistics satisfy
`found = skipped + copied`, `name_existing = skipped + copied_hq` and
`copied_hq ≤ copied`: each discovered file increments `found` and then
exactly one of `skipped` or `copied`, and the name-hit path accounts for all
skips and higher-quality copies. -/
theorem C10_statistics_invariant (existing media_files : List SourceFile)
    (target_dir : String) (fs : Fs) (st : Statistics) (fs' : Fs)
    (h : sync_files_to_location existing media_files target_dir fs = .ok (st, fs')) :
    st.found = st.skipped + st.copied ∧
    st.name_existing = st.skipped + st.copied_hq ∧
    st.copied_hq ≤ st.copied :=
  syncFrom_inv media_files (build_existing_files_set existing) target_dir {} fs st fs'
    ⟨rfl, rfl, Nat.le_refl 0⟩ h

/-- C10, witness: the one-candidate run that copies `c.jpg` ends with
statistics satisfying the three relationships. -/
theorem C10_statistics_invariant_witness :
    ({ found := 1, copied := 1 } : Statistics).found =
      ({ found := 1, copied := 1 } : Statistics).skipped +
        ({ found := 1, copied := 1 } : Statistics).copied ∧
    ({ found := 1, copied := 1 } : Statistics).name_existing =
      ({ found := 1, copied := 1 } : Statistics).skipped +
        ({ found := 1, copied := 1 } : Statistics).copied_hq ∧
    ({ found := 1, copied := 1 } : Statistics).copied_hq ≤
      ({ found := 1, copied := 1 } : Statistics).copied :=
  C10_statistics_invariant [] [⟨"s/c.jpg", "c.jpg", none, some 3, 3⟩] "t" []
    { found := 1, copied := 1 } [("t/1970_01_01/c.jpg", 3)] rfl

end MediaTools
